import Mathlib

/-
Verification of the bead_sorter repository core (sorter_logic and the
firmware tube assigner) against its natural-language specification.

Modelling conventions:
- Machine integers are modelled as `Nat`/`Int`.  Wrap-around is written
  explicitly (`% 2^32`, `% 2^64`, `% 256`) at every operation of the source
  where an overflowing cast or accumulation is possible; operations whose
  results provably fit their machine type are left plain.
- `Rgb::to_lab` in the source is 32-bit floating-point code (powf etc.), which
  has no faithful shallow embedding here.  It is therefore treated as an
  abstract parameter `toLab : Rgb → Int × Int × Int` (the integer triple the
  source truncates to), and every theorem about `dist_lab` and its callers is
  proved for an arbitrary such function, hence in particular for the one the
  source computes.
- Rust `for` loops with `break`/accumulators become structural recursions or
  `List.foldl` with the same initial values and update conditions.
-/

def U32 : Nat := 2 ^ 32

def U64 : Nat := 2 ^ 64

/-- An 8-bit RGB triple (fields are the `u8` channel values). -/
structure Rgb where
  r : Nat
  g : Nat
  b : Nat
deriving DecidableEq

/-- Result of `Palette::match_color` (src/sorter_logic/src/lib.rs). -/
inductive PaletteMatch where
  | Match : Nat → PaletteMatch
  | NewEntry : Nat → PaletteMatch
  | Full : PaletteMatch
deriving DecidableEq

/-- Running-sum accumulator `PaletteEntry` (sums are `u32`, `sum_var` is `u64`,
`count` is `u32`). -/
structure PaletteEntry where
  sum_r : Nat
  sum_g : Nat
  sum_b : Nat
  sum_var : Nat
  count : Nat
deriving DecidableEq

instance : Inhabited PaletteEntry := ⟨⟨0, 0, 0, 0, 0⟩⟩

/-- `PaletteEntry::new`: seed the accumulator with one sample. -/
def PaletteEntry.new (rgb : Rgb) (var : Nat) : PaletteEntry :=
  ⟨rgb.r, rgb.g, rgb.b, var, 1⟩

/-- `PaletteEntry::add`: accumulate a sample; the `u32`/`u64` additions wrap. -/
def PaletteEntry.add (e : PaletteEntry) (rgb : Rgb) (var : Nat) : PaletteEntry :=
  ⟨(e.sum_r + rgb.r) % U32, (e.sum_g + rgb.g) % U32, (e.sum_b + rgb.b) % U32,
   (e.sum_var + var) % U64, (e.count + 1) % U32⟩

/-- `PaletteEntry::avg`: integer-truncated running average, guarded against
`count == 0`; the `as u8` casts on the channel averages are `% 256` and the
`as u32` cast on the variance average is `% 2^32`. -/
def PaletteEntry.avg (e : PaletteEntry) : Rgb × Nat :=
  if e.count = 0 then (⟨0, 0, 0⟩, 0)
  else (⟨e.sum_r / e.count % 256, e.sum_g / e.count % 256, e.sum_b / e.count % 256⟩,
        e.sum_var / e.count % U32)

/-- `Rgb::dist`: squared Euclidean RGB distance (the i32 sum is non-negative and
fits, the `as u32` cast is exact). -/
def Rgb.dist (a b : Rgb) : Nat :=
  (((a.r : Int) - b.r) ^ 2 + ((a.g : Int) - b.g) ^ 2 + ((a.b : Int) - b.b) ^ 2).toNat

/-- `Rgb::from_rgb565`: unpack big-endian-decoded RGB565 and rescale to 8 bits;
the `as u8` casts are `% 256` (in fact exact, the quotients are ≤ 255). -/
def Rgb.from_rgb565 (p : Nat) : Rgb :=
  ⟨(p >>> 11 &&& 0x1F) * 255 / 31 % 256,
   (p >>> 5 &&& 0x3F) * 255 / 63 % 256,
   (p &&& 0x1F) * 255 / 31 % 256⟩

/-- `Rgb::dist_lab` over an abstract `toLab`: squared Lab component difference;
the i32 wrap-around plus the final `as u32` cast amount to one reduction
`mod 2^32` of the exact integer value. -/
def dist_lab (toLab : Rgb → Int × Int × Int) (a b : Rgb) : Nat :=
  ((((toLab a).1 - (toLab b).1) ^ 2 + ((toLab a).2.1 - (toLab b).2.1) ^ 2 +
    ((toLab a).2.2 - (toLab b).2.2) ^ 2) % (U32 : Int)).toNat

/-- A `Palette<N>` value: `colors` has length `N`. -/
structure Palette where
  colors : List (Option PaletteEntry)
  count : Nat

/-- `Palette::new`. -/
def Palette.new (N : Nat) : Palette :=
  ⟨List.replicate N none, 0⟩

/-- The scan loop of `Palette::match_color`: walk the slots in index order,
stop at the first empty slot, track the strictly best `dist_lab` so far
(initial best index `None`, initial min distance `u32::MAX`). -/
def matchScanGo (toLab : Rgb → Int × Int × Int) (rgb : Rgb) :
    List (Option PaletteEntry) → Nat → Option Nat → Nat → Option Nat × Nat
  | [], _, best, md => (best, md)
  | none :: _, _, best, md => (best, md)
  | some e :: rest, i, best, md =>
    let d := dist_lab toLab rgb (e.avg).1
    if d < md then matchScanGo toLab rgb rest (i + 1) (some i) d
    else matchScanGo toLab rgb rest (i + 1) best md

/-- The fall-through tail of `Palette::match_color`: append a new entry at
index `count` if there is room, otherwise report `Full`. -/
def Palette.append_entry (p : Palette) (rgb : Rgb) (variance : Nat) :
    PaletteMatch × Palette :=
  if p.count < p.colors.length then
    (PaletteMatch.NewEntry p.count,
     ⟨p.colors.set p.count (some (PaletteEntry.new rgb variance)), p.count + 1⟩)
  else (PaletteMatch.Full, p)

/-- `Palette::match_color`.  The `_variance` argument is unused by the scan
(the source comment reads "Pure Color Matching (No Variance Penalty)"); it only
seeds the new entry on the `NewEntry` path. -/
def Palette.match_color (toLab : Rgb → Int × Int × Int) (p : Palette) (rgb : Rgb)
    (variance threshold : Nat) : PaletteMatch × Palette :=
  match matchScanGo toLab rgb p.colors 0 none (U32 - 1) with
  | (some idx, md) =>
    if md < threshold then (PaletteMatch.Match idx, p)
    else p.append_entry rgb variance
  | (none, _) => p.append_entry rgb variance

/-- `Palette::add_sample`: accumulate into a populated in-range slot, otherwise
do nothing. -/
def Palette.add_sample (p : Palette) (index : Nat) (rgb : Rgb) (variance : Nat) :
    Palette :=
  match p.colors.getD index none with
  | some e => ⟨p.colors.set index (some (e.add rgb variance)), p.count⟩
  | none => p

/-- A concrete stand-in for the abstract `toLab`, used to instantiate
universally quantified theorems in witnesses. -/
def toLab0 : Rgb → Int × Int × Int := fun _ => (0, 0, 0)

theorem dist_lab_lt (toLab : Rgb → Int × Int × Int) (a b : Rgb) :
    dist_lab toLab a b < U32 := by
  unfold dist_lab
  have h : (0 : Int) < (U32 : Int) := by norm_num [U32]
  have := Int.emod_lt_of_pos
    (((toLab a).1 - (toLab b).1) ^ 2 + ((toLab a).2.1 - (toLab b).2.1) ^ 2 +
      ((toLab a).2.2 - (toLab b).2.2) ^ 2) h
  omega

/-- C6: dist_lab is symmetric for every pair of colors (and for every possible
`to_lab`, hence for the floating-point one of the source). -/
theorem dist_lab_symm (toLab : Rgb → Int × Int × Int) (a b : Rgb) :
    dist_lab toLab a b = dist_lab toLab b a := by
  unfold dist_lab
  have h : ∀ x y : Int, (x - y) ^ 2 = (y - x) ^ 2 := by intro x y; ring
  rw [h ((toLab a).1), h ((toLab a).2.1), h ((toLab a).2.2)]

/-- C10: avg() on a PaletteEntry whose count is 0 returns ((0,0,0), 0); the
division is guarded, so avg() is total on every accumulator value. -/
theorem avg_zero_count (e : PaletteEntry) (h : e.count = 0) :
    e.avg = (⟨0, 0, 0⟩, 0) := by
  unfold PaletteEntry.avg
  rw [h]
  simp

theorem avg_zero_count_witness :
    (⟨17, 23, 99, 5, 0⟩ : PaletteEntry).avg = (⟨0, 0, 0⟩, 0) :=
  avg_zero_count ⟨17, 23, 99, 5, 0⟩ rfl

/-- Iterated `PaletteEntry::add` of one fixed observation. -/
def PaletteEntry.iterAdd (rgb : Rgb) (var : Nat) : Nat → PaletteEntry → PaletteEntry
  | 0, e => e
  | n + 1, e => (PaletteEntry.iterAdd rgb var n e).add rgb var

/-- The accumulator after `k` identical observations `(rgb, var)`:
`PaletteEntry::new` followed by `k - 1` further `add` calls. -/
def PaletteEntry.afterObservations (rgb : Rgb) (var : Nat) (k : Nat) : PaletteEntry :=
  PaletteEntry.iterAdd rgb var (k - 1) (PaletteEntry.new rgb var)

theorem iterAdd_new (rgb : Rgb) (var : Nat) (hr : rgb.r < U32) (hg : rgb.g < U32)
    (hb : rgb.b < U32) (hv : var < U64) (n : Nat) :
    PaletteEntry.iterAdd rgb var n (PaletteEntry.new rgb var) =
      ⟨(n + 1) * rgb.r % U32, (n + 1) * rgb.g % U32, (n + 1) * rgb.b % U32,
       (n + 1) * var % U64, (n + 1) % U32⟩ := by
  induction n with
  | zero =>
    simp only [PaletteEntry.iterAdd, PaletteEntry.new, zero_add, one_mul]
    have h1 : (1 : Nat) % U32 = 1 := by norm_num [U32]
    rw [Nat.mod_eq_of_lt hr, Nat.mod_eq_of_lt hg, Nat.mod_eq_of_lt hb,
      Nat.mod_eq_of_lt hv, h1]
  | succ n ih =>
    simp only [PaletteEntry.iterAdd, ih, PaletteEntry.add]
    congr 1 <;> rw [Nat.mod_add_mod] <;> ring_nf

theorem iterAdd_new_witness :
    PaletteEntry.iterAdd ⟨1, 2, 3⟩ 4 2 (PaletteEntry.new ⟨1, 2, 3⟩ 4) =
      ⟨3 * 1 % U32, 3 * 2 % U32, 3 * 3 % U32, 3 * 4 % U64, 3 % U32⟩ :=
  iterAdd_new ⟨1, 2, 3⟩ 4 (by norm_num [U32]) (by norm_num [U32]) (by norm_num [U32])
    (by norm_num [U64]) 2

/-- C9 counterexample: with `k = 2^25` identical pure-white observations the
`u32` channel sums wrap, and `avg()` returns channel value 127 instead of 255;
so the claim does not hold for every `k ≥ 1`. -/
theorem entry_avg_overflow_counterexample :
    (PaletteEntry.afterObservations ⟨255, 255, 255⟩ 0 (2 ^ 25)).avg ≠
      ((⟨255, 255, 255⟩ : Rgb), 0) := by
  unfold PaletteEntry.afterObservations
  rw [iterAdd_new ⟨255, 255, 255⟩ 0 (by norm_num [U32]) (by norm_num [U32])
    (by norm_num [U32]) (by norm_num [U64]) (2 ^ 25 - 1)]
  have hk : 2 ^ 25 - 1 + 1 = 2 ^ 25 := by norm_num
  rw [hk]
  unfold PaletteEntry.avg
  norm_num [U32, U64, Rgb.mk.injEq, Prod.ext_iff]

/-- C9 amended: after `k` identical observations `(C, V)` on a fresh
`PaletteEntry` (one `new` plus `k - 1` `add`s), `avg()` returns exactly
`(C, V)`, provided `k ≥ 1` and the accumulators do not overflow
(`k * channel < 2^32` per channel, `k * V < 2^64`, `k < 2^32`). -/
theorem entry_avg_exact_no_overflow (rgb : Rgb) (V k : Nat) (hk : 1 ≤ k)
    (hr : rgb.r < 256) (hg : rgb.g < 256) (hb : rgb.b < 256) (hV : V < U32)
    (hkr : k * rgb.r < U32) (hkg : k * rgb.g < U32) (hkb : k * rgb.b < U32)
    (hkv : k * V < U64) (hkc : k < U32) :
    (PaletteEntry.afterObservations rgb V k).avg = (rgb, V) := by
  unfold PaletteEntry.afterObservations
  have hrw : k - 1 + 1 = k := Nat.succ_pred_eq_of_pos hk
  have hru : rgb.r < U32 := lt_of_lt_of_le hr (by norm_num [U32])
  have hgu : rgb.g < U32 := lt_of_lt_of_le hg (by norm_num [U32])
  have hbu : rgb.b < U32 := lt_of_lt_of_le hb (by norm_num [U32])
  have hvu : V < U64 := lt_of_lt_of_le (lt_of_lt_of_le hV (le_refl U32))
    (by norm_num [U32, U64])
  rw [iterAdd_new rgb V hru hgu hbu hvu (k - 1), hrw]
  have hk0 : k ≠ 0 := by omega
  unfold PaletteEntry.avg
  simp only [Nat.mod_eq_of_lt hkr, Nat.mod_eq_of_lt hkg, Nat.mod_eq_of_lt hkb,
    Nat.mod_eq_of_lt hkv, Nat.mod_eq_of_lt hkc, hk0, if_neg hk0]
  rw [Nat.mul_div_cancel_left rgb.r (Nat.pos_of_ne_zero hk0),
    Nat.mul_div_cancel_left rgb.g (Nat.pos_of_ne_zero hk0),
    Nat.mul_div_cancel_left rgb.b (Nat.pos_of_ne_zero hk0),
    Nat.mul_div_cancel_left V (Nat.pos_of_ne_zero hk0),
    Nat.mod_eq_of_lt hr, Nat.mod_eq_of_lt hg, Nat.mod_eq_of_lt hb,
    Nat.mod_eq_of_lt hV]
  simp

theorem entry_avg_exact_witness :
    (PaletteEntry.afterObservations ⟨10, 20, 30⟩ 7 3).avg = ((⟨10, 20, 30⟩ : Rgb), 7) :=
  entry_avg_exact_no_overflow ⟨10, 20, 30⟩ 7 3 (by decide) (by decide) (by decide)
    (by decide) (by norm_num [U32]) (by norm_num [U32]) (by norm_num [U32])
    (by norm_num [U32]) (by norm_num [U64]) (by norm_num [U32])

/-- Number of leading populated slots: exactly the slots the `match_color`
scan visits before its `break`. -/
def plen (l : List (Option PaletteEntry)) : Nat :=
  (l.takeWhile Option.isSome).length

/-- Lab distance from the sample to the running average of slot `t`
(0 for an empty slot; only used at populated indices). -/
def dAt (toLab : Rgb → Int × Int × Int) (rgb : Rgb)
    (l : List (Option PaletteEntry)) (t : Nat) : Nat :=
  match l.getD t none with
  | some e => dist_lab toLab rgb (e.avg).1
  | none => 0

theorem plen_cons_none (l : List (Option PaletteEntry)) : plen (none :: l) = 0 := by
  simp [plen, List.takeWhile]

theorem plen_cons_some (e : PaletteEntry) (l : List (Option PaletteEntry)) :
    plen (some e :: l) = plen l + 1 := by
  simp [plen, List.takeWhile]

theorem plen_le_length (l : List (Option PaletteEntry)) : plen l ≤ l.length := by
  induction l with
  | nil => simp [plen]
  | cons x rest ih =>
    cases x with
    | none =>
      rw [plen_cons_none]
      simp
    | some e =>
      rw [plen_cons_some]
      simp only [List.length_cons]
      omega

theorem dAt_cons_zero_some (toLab : Rgb → Int × Int × Int) (rgb : Rgb)
    (e : PaletteEntry) (l : List (Option PaletteEntry)) :
    dAt toLab rgb (some e :: l) 0 = dist_lab toLab rgb (e.avg).1 := rfl

theorem dAt_cons_succ (toLab : Rgb → Int × Int × Int) (rgb : Rgb)
    (x : Option PaletteEntry) (l : List (Option PaletteEntry)) (t : Nat) :
    dAt toLab rgb (x :: l) (t + 1) = dAt toLab rgb l t := rfl

theorem matchScanGo_cons_some (toLab : Rgb → Int × Int × Int) (rgb : Rgb)
    (e : PaletteEntry) (rest : List (Option PaletteEntry)) (i : Nat)
    (best : Option Nat) (md : Nat) :
    matchScanGo toLab rgb (some e :: rest) i best md =
      if dist_lab toLab rgb (e.avg).1 < md then
        matchScanGo toLab rgb rest (i + 1) (some i) (dist_lab toLab rgb (e.avg).1)
      else matchScanGo toLab rgb rest (i + 1) best md := rfl

/-- Full characterization of the `match_color` scan loop: either nothing beat
the incoming minimum (and the state is returned unchanged), or the result is
the first index attaining the minimum `dist_lab` over the populated leading
slots, strictly better than the incoming minimum. -/
theorem matchScanGo_spec (toLab : Rgb → Int × Int × Int) (rgb : Rgb) :
    ∀ (l : List (Option PaletteEntry)) (i : Nat) (best : Option Nat) (md : Nat),
    (matchScanGo toLab rgb l i best md = (best, md) ∧
      ∀ t, t < plen l → md ≤ dAt toLab rgb l t) ∨
    (∃ j, j < plen l ∧
      matchScanGo toLab rgb l i best md = (some (i + j), dAt toLab rgb l j) ∧
      dAt toLab rgb l j < md ∧
      (∀ t, t < j → dAt toLab rgb l j < dAt toLab rgb l t) ∧
      (∀ t, t < plen l → dAt toLab rgb l j ≤ dAt toLab rgb l t)) := by
  intro l
  induction l with
  | nil =>
    intro i best md
    left
    refine ⟨rfl, ?_⟩
    intro t ht
    simp [plen] at ht
  | cons x rest ih =>
    intro i best md
    cases x with
    | none =>
      left
      refine ⟨rfl, ?_⟩
      intro t ht
      rw [plen_cons_none] at ht
      omega
    | some e =>
      rw [matchScanGo_cons_some]
      by_cases hd : dist_lab toLab rgb (e.avg).1 < md
      · rw [if_pos hd]
        rcases ih (i + 1) (some i) (dist_lab toLab rgb (e.avg).1) with
          ⟨heq, hall⟩ | ⟨j, hj, heq, hlt, hstrict, hmin⟩
        · right
          refine ⟨0, ?_, ?_, ?_, ?_, ?_⟩
          · rw [plen_cons_some]; omega
          · rw [heq, dAt_cons_zero_some, Nat.add_zero]
          · rw [dAt_cons_zero_some]; exact hd
          · intro t ht; omega
          · intro t ht
            cases t with
            | zero => exact le_refl _
            | succ u =>
              rw [dAt_cons_zero_some, dAt_cons_succ]
              rw [plen_cons_some] at ht
              exact hall u (by omega)
        · right
          refine ⟨j + 1, ?_, ?_, ?_, ?_, ?_⟩
          · rw [plen_cons_some]; omega
          · rw [heq, dAt_cons_succ]
            have : i + 1 + j = i + (j + 1) := by omega
            rw [this]
          · rw [dAt_cons_succ]; exact lt_trans hlt hd
          · intro t ht
            cases t with
            | zero => rw [dAt_cons_succ, dAt_cons_zero_some]; exact hlt
            | succ u => rw [dAt_cons_succ, dAt_cons_succ]; exact hstrict u (by omega)
          · intro t ht
            cases t with
            | zero =>
              rw [dAt_cons_succ, dAt_cons_zero_some]
              exact le_of_lt hlt
            | succ u =>
              rw [dAt_cons_succ, dAt_cons_succ]
              rw [plen_cons_some] at ht
              exact hmin u (by omega)
      · rw [if_neg hd]
        rcases ih (i + 1) best md with
          ⟨heq, hall⟩ | ⟨j, hj, heq, hlt, hstrict, hmin⟩
        · left
          refine ⟨heq, ?_⟩
          intro t ht
          cases t with
          | zero => rw [dAt_cons_zero_some]; omega
          | succ u =>
            rw [dAt_cons_succ]
            rw [plen_cons_some] at ht
            exact hall u (by omega)
        · right
          refine ⟨j + 1, ?_, ?_, ?_, ?_, ?_⟩
          · rw [plen_cons_some]; omega
          · rw [heq, dAt_cons_succ]
            have : i + 1 + j = i + (j + 1) := by omega
            rw [this]
          · rw [dAt_cons_succ]; exact hlt
          · intro t ht
            cases t with
            | zero =>
              rw [dAt_cons_succ, dAt_cons_zero_some]
              omega
            | succ u => rw [dAt_cons_succ, dAt_cons_succ]; exact hstrict u (by omega)
          · intro t ht
            cases t with
            | zero =>
              rw [dAt_cons_succ, dAt_cons_zero_some]
              omega
            | succ u =>
              rw [dAt_cons_succ, dAt_cons_succ]
              rw [plen_cons_some] at ht
              exact hmin u (by omega)

theorem getD_set_self {α : Type} (l : List α) (n : Nat) (a d : α)
    (h : n < l.length) : (l.set n a).getD n d = a := by
  simp [List.getD_eq_getElem?_getD, List.getElem?_set_eq_of_lt a h]

theorem getD_set_ne {α : Type} (l : List α) (n m : Nat) (a d : α) (h : n ≠ m) :
    (l.set n a).getD m d = l.getD m d := by
  simp [List.getD_eq_getElem?_getD, List.getElem?_set_ne h]

theorem append_entry_of_room (p : Palette) (rgb : Rgb) (v : Nat)
    (h : p.count < p.colors.length) :
    p.append_entry rgb v =
      (PaletteMatch.NewEntry p.count,
       ⟨p.colors.set p.count (some (PaletteEntry.new rgb v)), p.count + 1⟩) := by
  unfold Palette.append_entry
  rw [if_pos h]

theorem append_entry_of_full (p : Palette) (rgb : Rgb) (v : Nat)
    (h : ¬p.count < p.colors.length) :
    p.append_entry rgb v = (PaletteMatch.Full, p) := by
  unfold Palette.append_entry
  rw [if_neg h]

theorem append_entry_fst_ne_Match (p : Palette) (rgb : Rgb) (v : Nat) (i : Nat) :
    (p.append_entry rgb v).1 ≠ PaletteMatch.Match i := by
  unfold Palette.append_entry
  split <;> simp

/-- `match_color` either returns `Match` straight out of the scan (under the
threshold, palette untouched), or falls through to `append_entry`. -/
theorem match_color_eq_cases (toLab : Rgb → Int × Int × Int) (p : Palette)
    (rgb : Rgb) (v th : Nat) :
    (∃ idx m, matchScanGo toLab rgb p.colors 0 none (U32 - 1) = (some idx, m) ∧
      m < th ∧ Palette.match_color toLab p rgb v th = (PaletteMatch.Match idx, p)) ∨
    Palette.match_color toLab p rgb v th = p.append_entry rgb v := by
  unfold Palette.match_color
  rcases hscan : matchScanGo toLab rgb p.colors 0 none (U32 - 1) with ⟨b, m⟩
  cases b with
  | none => right; rfl
  | some j =>
    by_cases hm : m < th
    · left
      refine ⟨j, m, rfl, hm, ?_⟩
      show (if m < th then (PaletteMatch.Match j, p) else p.append_entry rgb v) =
        (PaletteMatch.Match j, p)
      rw [if_pos hm]
    · right
      show (if m < th then (PaletteMatch.Match j, p) else p.append_entry rgb v) =
        p.append_entry rgb v
      rw [if_neg hm]

/-- Characterization of a `Match idx` outcome: the palette is unchanged, `idx`
is a populated leading slot, its `dist_lab` to the sample is under the
threshold, and it is the first index attaining the minimum `dist_lab` over all
populated leading slots. -/
theorem match_color_Match_char (toLab : Rgb → Int × Int × Int) (p : Palette)
    (rgb : Rgb) (v th idx : Nat)
    (h : (Palette.match_color toLab p rgb v th).1 = PaletteMatch.Match idx) :
    (Palette.match_color toLab p rgb v th).2 = p ∧
    idx < plen p.colors ∧
    dAt toLab rgb p.colors idx < th ∧
    (∀ t, t < idx → dAt toLab rgb p.colors idx < dAt toLab rgb p.colors t) ∧
    (∀ t, t < plen p.colors → dAt toLab rgb p.colors idx ≤ dAt toLab rgb p.colors t) := by
  rcases match_color_eq_cases toLab p rgb v th with
    ⟨j, m, hscan, hm, heq⟩ | heq
  · rw [heq] at h
    have hj : j = idx := by
      have : PaletteMatch.Match j = PaletteMatch.Match idx := h
      cases this
      rfl
    subst hj
    rcases matchScanGo_spec toLab rgb p.colors 0 none (U32 - 1) with
      ⟨hres, _⟩ | ⟨j2, hj2, hres, hlt, hstrict, hmin⟩
    · rw [hscan] at hres
      cases hres
    · rw [hscan] at hres
      have hidx : j = 0 + j2 ∧ m = dAt toLab rgb p.colors j2 := by
        have h1 : (some j : Option Nat) = some (0 + j2) := congrArg Prod.fst hres
        have h2 : m = dAt toLab rgb p.colors j2 := congrArg Prod.snd hres
        exact ⟨Option.some.inj h1, h2⟩
    -- j = j2 since 0 + j2 = j2
      have hjj : j = j2 := by omega
      subst hjj
      rw [heq]
      refine ⟨rfl, hj2, ?_, hstrict, hmin⟩
      rw [← hidx.2]
      exact hm
  · rw [heq] at h
    exact absurd h (append_entry_fst_ne_Match p rgb v idx)

/-- Characterization of a `NewEntry idx` outcome: `idx` is the old fill count,
there was room, and the new state appends exactly one seeded slot there. -/
theorem match_color_NewEntry_char (toLab : Rgb → Int × Int × Int) (p : Palette)
    (rgb : Rgb) (v th idx : Nat)
    (h : (Palette.match_color toLab p rgb v th).1 = PaletteMatch.NewEntry idx) :
    idx = p.count ∧ p.count < p.colors.length ∧
    Palette.match_color toLab p rgb v th =
      (PaletteMatch.NewEntry p.count,
       ⟨p.colors.set p.count (some (PaletteEntry.new rgb v)), p.count + 1⟩) := by
  rcases match_color_eq_cases toLab p rgb v th with
    ⟨j, m, hscan, hm, heq⟩ | heq
  · rw [heq] at h
    cases h
  · rw [heq] at h ⊢
    by_cases hroom : p.count < p.colors.length
    · rw [append_entry_of_room p rgb v hroom] at h ⊢
      have : PaletteMatch.NewEntry p.count = PaletteMatch.NewEntry idx := h
      cases this
      exact ⟨rfl, hroom, rfl⟩
    · rw [append_entry_of_full p rgb v hroom] at h
      cases h

/-- Characterization of a `Full` outcome: the palette is unchanged and there
was no room. -/
theorem match_color_Full_char (toLab : Rgb → Int × Int × Int) (p : Palette)
    (rgb : Rgb) (v th : Nat)
    (h : (Palette.match_color toLab p rgb v th).1 = PaletteMatch.Full) :
    (Palette.match_color toLab p rgb v th).2 = p ∧
    ¬p.count < p.colors.length := by
  rcases match_color_eq_cases toLab p rgb v th with
    ⟨j, m, hscan, hm, heq⟩ | heq
  · rw [heq] at h
    cases h
  · rw [heq] at h ⊢
    by_cases hroom : p.count < p.colors.length
    · rw [append_entry_of_room p rgb v hroom] at h
      cases h
    · rw [append_entry_of_full p rgb v hroom]
      exact ⟨rfl, hroom⟩

/-- C1 amended: the `match_color` scan ranks populated slots by `dist_lab`
alone, and the returned decision is identical for every value of the variance
argument; the variance only seeds the created accumulator on the `NewEntry`
path. -/
theorem match_color_uses_dist_lab_only (toLab : Rgb → Int × Int × Int)
    (p : Palette) (rgb : Rgb) (v1 v2 th : Nat) :
    (Palette.match_color toLab p rgb v1 th).1 =
      (Palette.match_color toLab p rgb v2 th).1 ∧
    (∀ idx, (Palette.match_color toLab p rgb v1 th).1 = PaletteMatch.Match idx →
      idx < plen p.colors ∧
      dAt toLab rgb p.colors idx < th ∧
      (∀ t, t < idx → dAt toLab rgb p.colors idx < dAt toLab rgb p.colors t) ∧
      (∀ t, t < plen p.colors →
        dAt toLab rgb p.colors idx ≤ dAt toLab rgb p.colors t)) := by
  constructor
  · unfold Palette.match_color
    rcases hscan : matchScanGo toLab rgb p.colors 0 none (U32 - 1) with ⟨b, m⟩
    cases b with
    | none =>
      show (p.append_entry rgb v1).1 = (p.append_entry rgb v2).1
      unfold Palette.append_entry
      split <;> rfl
    | some j =>
      by_cases hm : m < th
      · show (if m < th then (PaletteMatch.Match j, p) else p.append_entry rgb v1).1 =
          (if m < th then (PaletteMatch.Match j, p) else p.append_entry rgb v2).1
        rw [if_pos hm, if_pos hm]
      · show (if m < th then (PaletteMatch.Match j, p) else p.append_entry rgb v1).1 =
          (if m < th then (PaletteMatch.Match j, p) else p.append_entry rgb v2).1
        rw [if_neg hm, if_neg hm]
        unfold Palette.append_entry
        split <;> rfl
  · intro idx h
    have hc := match_color_Match_char toLab p rgb v1 th idx h
    exact ⟨hc.2.1, hc.2.2.1, hc.2.2.2.1, hc.2.2.2.2⟩

theorem match_color_uses_dist_lab_only_witness :
    (Palette.match_color toLab0 (Palette.new 3) ⟨1, 2, 3⟩ 0 10).1 =
      (Palette.match_color toLab0 (Palette.new 3) ⟨1, 2, 3⟩ 777 10).1 :=
  (match_color_uses_dist_lab_only toLab0 (Palette.new 3) ⟨1, 2, 3⟩ 0 777 10).1

/-- The similarity metric described by the spec sentence behind C1:
`dist_lab` plus the variance-difference term `|sample.variance − entry.variance| / 10`. -/
def specSimilarity (toLab : Rgb → Int × Int × Int) (rgb : Rgb) (variance : Nat)
    (e : PaletteEntry) : Nat :=
  dist_lab toLab rgb (e.avg).1 +
    (if (e.avg).2 ≤ variance then variance - (e.avg).2 else (e.avg).2 - variance) / 10

/-- The scan loop as the spec sentence describes it, using `specSimilarity`
instead of plain `dist_lab`. -/
def specMatchScanGo (toLab : Rgb → Int × Int × Int) (rgb : Rgb) (variance : Nat) :
    List (Option PaletteEntry) → Nat → Option Nat → Nat → Option Nat × Nat
  | [], _, best, md => (best, md)
  | none :: _, _, best, md => (best, md)
  | some e :: rest, i, best, md =>
    let d := specSimilarity toLab rgb variance e
    if d < md then specMatchScanGo toLab rgb variance rest (i + 1) (some i) d
    else specMatchScanGo toLab rgb variance rest (i + 1) best md

/-- `match_color` as C1 words it (a refinement model, not source code): the
scan uses the combined Lab-plus-variance similarity. -/
def Palette.match_color_specModel (toLab : Rgb → Int × Int × Int) (p : Palette)
    (rgb : Rgb) (variance threshold : Nat) : PaletteMatch × Palette :=
  match specMatchScanGo toLab rgb variance p.colors 0 none (U32 - 1) with
  | (some idx, md) =>
    if md < threshold then (PaletteMatch.Match idx, p)
    else p.append_entry rgb variance
  | (none, _) => p.append_entry rgb variance

/-- A one-entry palette holding a single observation of color (10,20,30) with
variance 0. -/
def cexPalette : Palette :=
  ⟨[some (PaletteEntry.new ⟨10, 20, 30⟩ 0), none], 1⟩

/-- C1 counterexample: on `cexPalette`, a sample of the identical color has Lab
distance 0 to slot 0, so the source `match_color` returns `Match 0` for
variance 0 and for variance 10000 alike — even though with the claimed
variance-difference term the similarity at variance 10000 is 1000 ≥ threshold
and the decision would have to change (the spec-worded model yields a
non-Match). -/
theorem match_color_variance_counterexample :
    (Palette.match_color toLab0 cexPalette ⟨10, 20, 30⟩ 0 1).1 =
      PaletteMatch.Match 0 ∧
    (Palette.match_color toLab0 cexPalette ⟨10, 20, 30⟩ 10000 1).1 =
      PaletteMatch.Match 0 ∧
    (Palette.match_color_specModel toLab0 cexPalette ⟨10, 20, 30⟩ 10000 1).1 ≠
      PaletteMatch.Match 0 := by
  refine ⟨?_, ?_, ?_⟩ <;> decide

/-- C4: whenever `match_color` returns `Match` or `Full`, the palette state
after the call is identical to the state before it (only `NewEntry` mutates). -/
theorem match_color_no_mutation (toLab : Rgb → Int × Int × Int) (p : Palette)
    (rgb : Rgb) (v th : Nat)
    (h : (Palette.match_color toLab p rgb v th).1 = PaletteMatch.Full ∨
      ∃ i, (Palette.match_color toLab p rgb v th).1 = PaletteMatch.Match i) :
    (Palette.match_color toLab p rgb v th).2 = p := by
  rcases h with h | ⟨i, h⟩
  · exact (match_color_Full_char toLab p rgb v th h).1
  · exact (match_color_Match_char toLab p rgb v th i h).1

theorem match_color_no_mutation_witness :
    (Palette.match_color toLab0 (Palette.new 0) ⟨1, 2, 3⟩ 4 5).2 = Palette.new 0 :=
  match_color_no_mutation toLab0 (Palette.new 0) ⟨1, 2, 3⟩ 4 5 (Or.inl (by decide))

/-- C7 counterexample: for capacity N = 0, the first `match_color` call on a
fresh `Palette<0>` returns `Full`, not `NewEntry(0)`; so the claim fails for
"every capacity N". -/
theorem first_match_empty_palette_N0 :
    ((Palette.new 0).match_color toLab0 ⟨0, 0, 0⟩ 0 100).1 = PaletteMatch.Full := by
  decide

/-- C7 amended: for every capacity N ≥ 1, every color, variance and threshold,
the first `match_color` call on a fresh `Palette<N>` returns `NewEntry(0)`. -/
theorem first_match_empty_palette (toLab : Rgb → Int × Int × Int) (N : Nat)
    (rgb : Rgb) (v th : Nat) (hN : 1 ≤ N) :
    ((Palette.new N).match_color toLab rgb v th).1 = PaletteMatch.NewEntry 0 := by
  obtain ⟨m, rfl⟩ : ∃ m, N = m + 1 := ⟨N - 1, by omega⟩
  have hscan : matchScanGo toLab rgb (Palette.new (m + 1)).colors 0 none (U32 - 1) =
      (none, U32 - 1) := by
    show matchScanGo toLab rgb (List.replicate (m + 1) none) 0 none (U32 - 1) = _
    rw [List.replicate_succ]
    rfl
  unfold Palette.match_color
  rw [hscan]
  show ((Palette.new (m + 1)).append_entry rgb v).1 = PaletteMatch.NewEntry 0
  rw [append_entry_of_room]
  · rfl
  · show (0 : Nat) < (List.replicate (m + 1) (none : Option PaletteEntry)).length
    simp

theorem first_match_empty_palette_witness :
    ((Palette.new 1).match_color toLab0 ⟨5, 6, 7⟩ 8 100).1 = PaletteMatch.NewEntry 0 :=
  first_match_empty_palette toLab0 1 ⟨5, 6, 7⟩ 8 100 (by decide)

/-- C8: `add_sample` never changes the fill count or the slot layout: the
length is preserved, every slot other than `index` is untouched, an empty or
out-of-range `index` makes the whole call a no-op, and a populated `index`
only replaces that slot's accumulator with the accumulated one. -/
theorem add_sample_frame (p : Palette) (i : Nat) (rgb : Rgb) (v : Nat) :
    (p.add_sample i rgb v).count = p.count ∧
    (p.add_sample i rgb v).colors.length = p.colors.length ∧
    (∀ j, j ≠ i → (p.add_sample i rgb v).colors.getD j none = p.colors.getD j none) ∧
    (p.colors.getD i none = none → p.add_sample i rgb v = p) ∧
    (∀ e, p.colors.getD i none = some e →
      (p.add_sample i rgb v).colors.getD i none = some (e.add rgb v)) := by
  unfold Palette.add_sample
  rcases hslot : p.colors.getD i none with _ | e
  · refine ⟨rfl, rfl, fun j hj => rfl, fun _ => rfl, ?_⟩
    intro e he
    cases he
  · have hi : i < p.colors.length := by
      by_contra hge
      rw [List.getD_eq_default] at hslot
      · cases hslot
      · omega
    refine ⟨rfl, by simp, ?_, ?_, ?_⟩
    · intro j hj
      show (p.colors.set i (some (e.add rgb v))).getD j none = p.colors.getD j none
      exact getD_set_ne p.colors i j _ none (fun hh => hj hh.symm)
    · intro hnone
      cases hnone
    · intro e2 he2
      cases he2
      show (p.colors.set i (some (e.add rgb v))).getD i none = some (e.add rgb v)
      exact getD_set_self p.colors i _ none hi

theorem add_sample_frame_witness :
    ((⟨[some ⟨1, 1, 1, 1, 1⟩], 1⟩ : Palette).add_sample 0 ⟨2, 2, 2⟩ 3).count = 1 :=
  (add_sample_frame ⟨[some ⟨1, 1, 1, 1, 1⟩], 1⟩ 0 ⟨2, 2, 2⟩ 3).1

theorem add_sample_count (p : Palette) (idx : Nat) (rgb : Rgb) (v : Nat) :
    (p.add_sample idx rgb v).count = p.count := by
  unfold Palette.add_sample
  rcases p.colors.getD idx none with _ | e <;> rfl

theorem add_sample_length (p : Palette) (idx : Nat) (rgb : Rgb) (v : Nat) :
    (p.add_sample idx rgb v).colors.length = p.colors.length := by
  unfold Palette.add_sample
  rcases p.colors.getD idx none with _ | e
  · rfl
  · simp

theorem match_color_count_le (toLab : Rgb → Int × Int × Int) (p : Palette)
    (rgb : Rgb) (v th : Nat) :
    p.count ≤ (Palette.match_color toLab p rgb v th).2.count := by
  rcases match_color_eq_cases toLab p rgb v th with ⟨j, m, _, _, heq⟩ | heq
  · rw [heq]
  · rw [heq]
    by_cases hroom : p.count < p.colors.length
    · rw [append_entry_of_room p rgb v hroom]
      exact Nat.le_succ _
    · rw [append_entry_of_full p rgb v hroom]

theorem match_color_length (toLab : Rgb → Int × Int × Int) (p : Palette)
    (rgb : Rgb) (v th : Nat) :
    (Palette.match_color toLab p rgb v th).2.colors.length = p.colors.length := by
  rcases match_color_eq_cases toLab p rgb v th with ⟨j, m, _, _, heq⟩ | heq
  · rw [heq]
  · rw [heq]
    by_cases hroom : p.count < p.colors.length
    · rw [append_entry_of_room p rgb v hroom]
      simp
    · rw [append_entry_of_full p rgb v hroom]

theorem match_color_frame (toLab : Rgb → Int × Int × Int) (p : Palette)
    (rgb : Rgb) (v th : Nat) (i : Nat) (hi : i ≠ p.count) :
    (Palette.match_color toLab p rgb v th).2.colors.getD i none =
      p.colors.getD i none := by
  rcases match_color_eq_cases toLab p rgb v th with ⟨j, m, _, _, heq⟩ | heq
  · rw [heq]
  · rw [heq]
    by_cases hroom : p.count < p.colors.length
    · rw [append_entry_of_room p rgb v hroom]
      exact getD_set_ne p.colors p.count i _ none (fun hh => hi hh.symm)
    · rw [append_entry_of_full p rgb v hroom]

theorem getD_replicate_none (N i : Nat) :
    (List.replicate N (none : Option PaletteEntry)).getD i none = none := by
  simp [List.getD_eq_getElem?_getD, List.getElem?_replicate]
  split <;> rfl

/-- Any interleaving of `match_color` and `add_sample` calls starting from
`Palette::new` (the way both the firmware and the simulators drive a
`Palette<N>`). -/
inductive PReachable (toLab : Rgb → Int × Int × Int) (N : Nat) : Palette → Prop where
  | init : PReachable toLab N (Palette.new N)
  | mcStep (p : Palette) (rgb : Rgb) (v th : Nat) :
      PReachable toLab N p →
      PReachable toLab N (Palette.match_color toLab p rgb v th).2
  | asStep (p : Palette) (idx : Nat) (rgb : Rgb) (v : Nat) :
      PReachable toLab N p → PReachable toLab N (p.add_sample idx rgb v)

/-- The structural palette invariant of the spec data model. -/
def PInv (N : Nat) (p : Palette) : Prop :=
  p.colors.length = N ∧ p.count ≤ N ∧
  ∀ i, (p.colors.getD i none).isSome ↔ i < p.count

theorem pinv_new (N : Nat) : PInv N (Palette.new N) := by
  refine ⟨by simp [Palette.new], by simp [Palette.new], ?_⟩
  intro i
  show ((List.replicate N (none : Option PaletteEntry)).getD i none).isSome ↔
    i < (0 : Nat)
  rw [getD_replicate_none]
  simp

theorem pinv_match_color (toLab : Rgb → Int × Int × Int) (N : Nat) (p : Palette)
    (rgb : Rgb) (v th : Nat) (h : PInv N p) :
    PInv N (Palette.match_color toLab p rgb v th).2 := by
  obtain ⟨hlen, hcnt, hslots⟩ := h
  rcases match_color_eq_cases toLab p rgb v th with ⟨j, m, _, _, heq⟩ | heq
  · rw [heq]
    exact ⟨hlen, hcnt, hslots⟩
  · rw [heq]
    by_cases hroom : p.count < p.colors.length
    · rw [append_entry_of_room p rgb v hroom]
      refine ⟨?_, ?_, ?_⟩
      · show (p.colors.set p.count (some (PaletteEntry.new rgb v))).length = N
        simpa using hlen
      · show p.count + 1 ≤ N
        omega
      · intro i
        show ((p.colors.set p.count
          (some (PaletteEntry.new rgb v))).getD i none).isSome ↔ i < p.count + 1
        by_cases hic : i = p.count
        · subst hic
          rw [getD_set_self p.colors p.count _ none hroom]
          simp
        · rw [getD_set_ne p.colors p.count i _ none (fun hh => hic hh.symm)]
          rw [hslots i]
          omega
    · rw [append_entry_of_full p rgb v hroom]
      exact ⟨hlen, hcnt, hslots⟩

theorem pinv_add_sample (N : Nat) (p : Palette) (idx : Nat) (rgb : Rgb) (v : Nat)
    (h : PInv N p) : PInv N (p.add_sample idx rgb v) := by
  obtain ⟨hlen, hcnt, hslots⟩ := h
  unfold Palette.add_sample
  rcases hslot : p.colors.getD idx none with _ | e
  · exact ⟨hlen, hcnt, hslots⟩
  · have hidx : idx < p.colors.length := by
      by_contra hge
      rw [List.getD_eq_default] at hslot
      · cases hslot
      · omega
    refine ⟨by simpa using hlen, hcnt, ?_⟩
    intro i
    by_cases hic : i = idx
    · subst hic
      rw [getD_set_self p.colors i _ none hidx]
      have := hslots i
      rw [hslot] at this
      simpa using this
    · rw [getD_set_ne p.colors idx i _ none (fun hh => hic hh.symm)]
      exact hslots i

theorem preachable_pinv (toLab : Rgb → Int × Int × Int) (N : Nat) (p : Palette)
    (h : PReachable toLab N p) : PInv N p := by
  induction h with
  | init => exact pinv_new N
  | mcStep p rgb v th hp ih => exact pinv_match_color toLab N p rgb v th ih
  | asStep p idx rgb v hp ih => exact pinv_add_sample N p idx rgb v ih

/-- C3: on every reachable Palette state, slots [0, count) are populated and
slots [count, N) are empty; match_color creates a new entry only at index
count and leaves every other slot untouched; count is not decreased by either
operation and never exceeds N. -/
theorem palette_reachable_invariants (toLab : Rgb → Int × Int × Int) (N : Nat)
    (p : Palette) (h : PReachable toLab N p) :
    p.colors.length = N ∧ p.count ≤ N ∧
    (∀ i, (p.colors.getD i none).isSome ↔ i < p.count) ∧
    (∀ rgb v th idx,
      (Palette.match_color toLab p rgb v th).1 = PaletteMatch.NewEntry idx →
      idx = p.count) ∧
    (∀ rgb v th i, i ≠ p.count →
      (Palette.match_color toLab p rgb v th).2.colors.getD i none =
        p.colors.getD i none) ∧
    (∀ rgb v th, p.count ≤ (Palette.match_color toLab p rgb v th).2.count) ∧
    (∀ idx rgb v, (p.add_sample idx rgb v).count = p.count) := by
  obtain ⟨hlen, hcnt, hslots⟩ := preachable_pinv toLab N p h
  refine ⟨hlen, hcnt, hslots, ?_, ?_, ?_, ?_⟩
  · intro rgb v th idx hne
    exact (match_color_NewEntry_char toLab p rgb v th idx hne).1
  · intro rgb v th i hi
    exact match_color_frame toLab p rgb v th i hi
  · intro rgb v th
    exact match_color_count_le toLab p rgb v th
  · intro idx rgb v
    exact add_sample_count p idx rgb v

theorem palette_reachable_invariants_witness :
    (Palette.new 2).colors.length = 2 ∧ (Palette.new 2).count ≤ 2 :=
  ⟨(palette_reachable_invariants toLab0 2 (Palette.new 2) PReachable.init).1,
   (palette_reachable_invariants toLab0 2 (Palette.new 2) PReachable.init).2.1⟩

/-- Lab distance from a sample to a tube entry's running average (the quantity
minimized by the full-roster fallback loop in `BeadSorter::get_tube_for_image`,
src/fw/src/sorter.rs). -/
def tubeDist (toLab : Rgb → Int × Int × Int) (c : Rgb) (e : PaletteEntry) : Nat :=
  dist_lab toLab c (e.avg).1

/-- The fallback loop of the tube assigner: initial `best_t = 0`,
`min_d = u32::MAX`, strict improvement only. -/
def tubeScanGo (toLab : Rgb → Int × Int × Int) (c : Rgb) :
    List PaletteEntry → Nat → Nat → Nat → Nat
  | [], _, bt, _ => bt
  | e :: rest, i, bt, md =>
    let d := tubeDist toLab c e
    if d < md then tubeScanGo toLab c rest (i + 1) i d
    else tubeScanGo toLab c rest (i + 1) bt md

/-- Index of the tube whose running-average color is nearest (in `dist_lab`) to
the sample, first on ties, as the fallback loop computes it. -/
def argminTube (toLab : Rgb → Int × Int × Int) (tubes : List PaletteEntry)
    (c : Rgb) : Nat :=
  tubeScanGo toLab c tubes 0 0 (U32 - 1)

theorem tubeScanGo_cons (toLab : Rgb → Int × Int × Int) (c : Rgb)
    (e : PaletteEntry) (rest : List PaletteEntry) (i bt md : Nat) :
    tubeScanGo toLab c (e :: rest) i bt md =
      if tubeDist toLab c e < md then tubeScanGo toLab c rest (i + 1) i (tubeDist toLab c e)
      else tubeScanGo toLab c rest (i + 1) bt md := rfl

/-- Characterization of the fallback loop: either no entry beat the incoming
minimum (result is the incoming best), or the result is the first index
attaining the minimum `tubeDist`, strictly better than the incoming minimum. -/
theorem tubeScanGo_spec (toLab : Rgb → Int × Int × Int) (c : Rgb) :
    ∀ (es : List PaletteEntry) (i bt md : Nat),
    (tubeScanGo toLab c es i bt md = bt ∧
      ∀ t, t < es.length → md ≤ tubeDist toLab c (es.getD t default)) ∨
    (∃ j, j < es.length ∧ tubeScanGo toLab c es i bt md = i + j ∧
      tubeDist toLab c (es.getD j default) < md ∧
      (∀ t, t < j →
        tubeDist toLab c (es.getD j default) < tubeDist toLab c (es.getD t default)) ∧
      (∀ t, t < es.length →
        tubeDist toLab c (es.getD j default) ≤ tubeDist toLab c (es.getD t default))) := by
  intro es
  induction es with
  | nil =>
    intro i bt md
    left
    refine ⟨rfl, ?_⟩
    intro t ht
    simp at ht
  | cons e rest ih =>
    intro i bt md
    rw [tubeScanGo_cons]
    by_cases hd : tubeDist toLab c e < md
    · rw [if_pos hd]
      rcases ih (i + 1) i (tubeDist toLab c e) with
        ⟨heq, hall⟩ | ⟨j, hj, heq, hlt, hstrict, hmin⟩
      · right
        refine ⟨0, by simp, ?_, ?_, ?_, ?_⟩
        · rw [heq, Nat.add_zero]
        · exact hd
        · intro t ht; omega
        · intro t ht
          cases t with
          | zero => exact le_refl _
          | succ u =>
            show tubeDist toLab c e ≤ tubeDist toLab c (rest.getD u default)
            exact hall u (by simpa using ht)
      · right
        refine ⟨j + 1, by simpa using hj, ?_, ?_, ?_, ?_⟩
        · rw [heq]
          omega
        · show tubeDist toLab c (rest.getD j default) < md
          exact lt_trans hlt hd
        · intro t ht
          cases t with
          | zero =>
            show tubeDist toLab c (rest.getD j default) < tubeDist toLab c e
            exact hlt
          | succ u =>
            show tubeDist toLab c (rest.getD j default) <
              tubeDist toLab c (rest.getD u default)
            exact hstrict u (by omega)
        · intro t ht
          cases t with
          | zero =>
            show tubeDist toLab c (rest.getD j default) ≤ tubeDist toLab c e
            exact le_of_lt hlt
          | succ u =>
            show tubeDist toLab c (rest.getD j default) ≤
              tubeDist toLab c (rest.getD u default)
            exact hmin u (by simpa using ht)
    · rw [if_neg hd]
      rcases ih (i + 1) bt md with
        ⟨heq, hall⟩ | ⟨j, hj, heq, hlt, hstrict, hmin⟩
      · left
        refine ⟨heq, ?_⟩
        intro t ht
        cases t with
        | zero =>
          show md ≤ tubeDist toLab c e
          omega
        | succ u =>
          show md ≤ tubeDist toLab c (rest.getD u default)
          exact hall u (by simpa using ht)
      · right
        refine ⟨j + 1, by simpa using hj, ?_, ?_, ?_, ?_⟩
        · rw [heq]
          omega
        · show tubeDist toLab c (rest.getD j default) < md
          exact hlt
        · intro t ht
          cases t with
          | zero =>
            show tubeDist toLab c (rest.getD j default) < tubeDist toLab c e
            omega
          | succ u =>
            show tubeDist toLab c (rest.getD j default) <
              tubeDist toLab c (rest.getD u default)
            exact hstrict u (by omega)
        · intro t ht
          cases t with
          | zero =>
            show tubeDist toLab c (rest.getD j default) ≤ tubeDist toLab c e
            omega
          | succ u =>
            show tubeDist toLab c (rest.getD j default) ≤
              tubeDist toLab c (rest.getD u default)
            exact hmin u (by simpa using ht)

theorem argminTube_lt (toLab : Rgb → Int × Int × Int) (tubes : List PaletteEntry)
    (c : Rgb) (h : 0 < tubes.length) : argminTube toLab tubes c < tubes.length := by
  unfold argminTube
  rcases tubeScanGo_spec toLab c tubes 0 0 (U32 - 1) with ⟨heq, _⟩ | ⟨j, hj, heq, _, _, _⟩
  · rw [heq]; exact h
  · rw [heq]; omega

theorem argminTube_min (toLab : Rgb → Int × Int × Int) (tubes : List PaletteEntry)
    (c : Rgb) : ∀ t, t < tubes.length →
    tubeDist toLab c (tubes.getD (argminTube toLab tubes c) default) ≤
      tubeDist toLab c (tubes.getD t default) := by
  intro t ht
  unfold argminTube
  rcases tubeScanGo_spec toLab c tubes 0 0 (U32 - 1) with
    ⟨heq, hall⟩ | ⟨j, hj, heq, _, _, hmin⟩
  · rw [heq]
    have hbound : ∀ u, u < tubes.length → tubeDist toLab c (tubes.getD u default) = U32 - 1 := by
      intro u hu
      have h1 := hall u hu
      have h2 : tubeDist toLab c (tubes.getD u default) < U32 :=
        dist_lab_lt toLab c ((tubes.getD u default).avg).1
      omega
    rw [hbound 0 (by omega), hbound t ht]
  · rw [Nat.zero_add] at heq
    rw [heq]
    exact hmin t ht

theorem argminTube_first_on_ties (toLab : Rgb → Int × Int × Int)
    (tubes : List PaletteEntry) (c : Rgb) :
    ∀ t, t < argminTube toLab tubes c →
    tubeDist toLab c (tubes.getD (argminTube toLab tubes c) default) <
      tubeDist toLab c (tubes.getD t default) := by
  intro t ht
  unfold argminTube at ht ⊢
  rcases tubeScanGo_spec toLab c tubes 0 0 (U32 - 1) with
    ⟨heq, hall⟩ | ⟨j, hj, heq, _, hstrict, _⟩
  · rw [heq] at ht
    omega
  · rw [Nat.zero_add] at heq
    rw [heq] at ht ⊢
    exact hstrict t ht

/-- Result of the region localizer. -/
structure BeadAnalysis where
  average_color : Rgb
  pixel_count : Nat
  variance : Nat
deriving DecidableEq

/-- Analysis configuration (src/sorter_logic/src/lib.rs).  The two `f32`
aspect-ratio fields are carried by the source struct but never read by the
algorithm; being floating point they are not modelled. -/
structure AnalysisConfig where
  edge_threshold : Int
  min_dimension : Nat
  filter_percent : Nat

/-- `AnalysisConfig::default()`. -/
def analysisConfigDefault : AnalysisConfig := ⟨40, 10, 60⟩

def natSum (l : List Nat) : Nat := l.foldl (fun a b => a + b) 0

/-- The integers from `a` to `b` inclusive (a Rust `a..=b` loop range). -/
def intRange (a b : Int) : List Int :=
  (List.range (b + 1 - a).toNat).map (fun n => a + n)

/-- Read the big-endian `u16` at byte offset `idx`, with the source's
`idx + 1 >= data.len()` skip-guard. -/
def getPixel (data : List Nat) (idx : Nat) : Option Nat :=
  if idx + 1 < data.length then some (data.getD idx 0 * 256 + data.getD (idx + 1) 0)
  else none

/-- Pixels of the background calibration rectangle x ∈ [10,15], y ∈ [3,6]
(clipped to the frame, out-of-buffer reads skipped). -/
def bgPixels (data : List Nat) (w h : Nat) : List Rgb :=
  (List.range' 3 4).flatMap (fun y =>
    (List.range' 10 6).filterMap (fun x =>
      if x < w ∧ y < h then (getPixel data ((y * w + x) * 2)).map Rgb.from_rgb565
      else none))

/-- Background color estimate: channel-wise average of the calibration
rectangle, black if no pixel was sampled. -/
def bgColor (data : List Nat) (w h : Nat) : Rgb :=
  if (bgPixels data w h).length = 0 then ⟨0, 0, 0⟩
  else
    ⟨natSum ((bgPixels data w h).map Rgb.r) / (bgPixels data w h).length % 256,
     natSum ((bgPixels data w h).map Rgb.g) / (bgPixels data w h).length % 256,
     natSum ((bgPixels data w h).map Rgb.b) / (bgPixels data w h).length % 256⟩

/-- Coordinates of the annulus (inner radius 3, outer radius 7) around center
`(cx, cy)`, bounded to the frame exactly as the source bounding-box loop is. -/
def ringOffsets (w h : Nat) (cx cy : Int) : List (Int × Int) :=
  (intRange (max (cy - 7) 0) (min (cy + 7) ((h : Int) - 1))).flatMap (fun y =>
    (intRange (max (cx - 7) 0) (min (cx + 7) ((w : Int) - 1))).filterMap (fun x =>
      if 9 ≤ (x - cx) * (x - cx) + (y - cy) * (y - cy) ∧
          (x - cx) * (x - cx) + (y - cy) * (y - cy) ≤ 49 then some (x, y)
      else none))

/-- The annulus pixels actually read: `(u16 value, mask index = byte idx / 2)`,
skipping reads past the end of the buffer. -/
def ringPixels (data : List Nat) (w h : Nat) (cx cy : Int) : List (Nat × Nat) :=
  (ringOffsets w h cx cy).filterMap (fun q =>
    match getPixel data ((q.2.toNat * w + q.1.toNat) * 2) with
    | some p => some (p, (q.2.toNat * w + q.1.toNat) * 2 / 2)
    | none => none)

/-- First-pass statistics of one candidate annulus: integer means (u8-cast in
the returned color), pixel count and summed per-channel variance
(`saturating_sub` is Nat subtraction). -/
def ringStatsCompute (px : List (Nat × Nat)) : Rgb × Nat × Nat :=
  let rgbs := px.map (fun q => Rgb.from_rgb565 q.1)
  let count := rgbs.length
  let mean_r := natSum (rgbs.map Rgb.r) / count
  let mean_g := natSum (rgbs.map Rgb.g) / count
  let mean_b := natSum (rgbs.map Rgb.b) / count
  (⟨mean_r % 256, mean_g % 256, mean_b % 256⟩, count,
    (natSum (rgbs.map (fun c => c.r * c.r)) / count - mean_r * mean_r) +
    (natSum (rgbs.map (fun c => c.g * c.g)) / count - mean_g * mean_g) +
    (natSum (rgbs.map (fun c => c.b * c.b)) / count - mean_b * mean_b))

/-- First-pass statistics, `none` when the annulus contributed no pixel (the
`count == 0 { continue }` of the source). -/
def ringStats (data : List Nat) (w h : Nat) (cx cy : Int) : Option (Rgb × Nat × Nat) :=
  if (ringPixels data w h cx cy).length = 0 then none
  else some (ringStatsCompute (ringPixels data w h cx cy))

/-- Candidate score: contrast against the background minus variance penalty
(`total_variance / 8`), paired with the candidate's statistics. -/
def ringScore (data : List Nat) (w h : Nat) (bg : Rgb) (cx cy : Int) :
    Option (Int × (Rgb × Nat × Nat)) :=
  (ringStats data w h cx cy).map (fun st =>
    ((st.1.dist bg : Int) - (st.2.2 : Int) / 8, st))

/-- The search window x ∈ [16,24], y ∈ [16,18] in row-major scan order. -/
def searchCenters : List (Int × Int) :=
  (intRange 16 18).flatMap (fun cy => (intRange 16 24).map (fun cx => (cx, cy)))

/-- Accumulator of the coarse localization scan. -/
structure CoarseState where
  best_score : Int
  best_cx : Int
  best_cy : Int
  best_stats : Option (Rgb × Nat × Nat)

/-- One candidate of the coarse scan: skipped entirely if the annulus had no
pixel, otherwise a strict (`score > best_score`) improvement check. -/
def coarseStep (data : List Nat) (w h : Nat) (bg : Rgb) (st : CoarseState)
    (c : Int × Int) : CoarseState :=
  match ringScore data w h bg c.1 c.2 with
  | none => st
  | some (score, stats) =>
    if st.best_score < score then ⟨score, c.1, c.2, some stats⟩ else st

/-- The coarse localization scan: sentinel score `i64::MIN`, initial center at
the middle of the search window. -/
def coarse (data : List Nat) (w h : Nat) : CoarseState :=
  searchCenters.foldl (coarseStep data w h (bgColor data w h))
    ⟨-(2 ^ 63), 20, 17, none⟩

/-- Squared RGB distance of an RGB565 pixel to the integer coarse mean. -/
def pixKeyDist (p : Nat) (mr mg mb : Int) : Nat :=
  ((((Rgb.from_rgb565 p).r : Int) - mr) ^ 2 + (((Rgb.from_rgb565 p).g : Int) - mg) ^ 2 +
    (((Rgb.from_rgb565 p).b : Int) - mb) ^ 2).toNat

/-- Insert into a sorted run, after all keys ≤ the new key (the placement the
in-place insertion sort of the source produces; it keeps equal keys stable). -/
def ringSortInsert (x : Nat × Nat × Nat) :
    List (Nat × Nat × Nat) → List (Nat × Nat × Nat)
  | [] => [x]
  | y :: ys => if x.2.1 < y.2.1 then x :: y :: ys else y :: ringSortInsert x ys

/-- The source's insertion sort ascending by the distance key (stable). -/
def ringSort (l : List (Nat × Nat × Nat)) : List (Nat × Nat × Nat) :=
  l.foldl (fun acc x => ringSortInsert x acc) []

/-- The outlier-filtered refinement over the winning annulus's collected
pixels: mean, per-pixel distance to it, stable sort, keep the best
`filter_percent`% (at least one), recompute mean and variance. -/
def refineCompute (px : List (Nat × Nat)) (filter_percent : Nat) : BeadAnalysis :=
  let p_count := px.length
  let rgbs := px.map (fun q => Rgb.from_rgb565 q.1)
  let mean_r : Int := (natSum (rgbs.map Rgb.r) / p_count : Nat)
  let mean_g : Int := (natSum (rgbs.map Rgb.g) / p_count : Nat)
  let mean_b : Int := (natSum (rgbs.map Rgb.b) / p_count : Nat)
  let keyed := px.map (fun q => (q.1, pixKeyDist q.1 mean_r mean_g mean_b, q.2))
  let keep_count := max (p_count * filter_percent / 100) 1
  let kept := ((ringSort keyed).take keep_count).map (fun q => Rgb.from_rgb565 q.1)
  let f_mean_r := natSum (kept.map Rgb.r) / keep_count
  let f_mean_g := natSum (kept.map Rgb.g) / keep_count
  let f_mean_b := natSum (kept.map Rgb.b) / keep_count
  ⟨⟨f_mean_r % 256, f_mean_g % 256, f_mean_b % 256⟩, keep_count,
    (natSum (kept.map (fun c => c.r * c.r)) / keep_count - f_mean_r * f_mean_r) +
    (natSum (kept.map (fun c => c.g * c.g)) / keep_count - f_mean_g * f_mean_g) +
    (natSum (kept.map (fun c => c.b * c.b)) / keep_count - f_mean_b * f_mean_b)⟩

/-- Refinement at the winning center: re-collect the annulus pixels capped at
256 (the fixed buffer), `none` if none were found. -/
def refineAt (data : List Nat) (w h : Nat) (cx cy : Int) (filter_percent : Nat) :
    Option BeadAnalysis :=
  if ((ringPixels data w h cx cy).take 256).length = 0 then none
  else some (refineCompute ((ringPixels data w h cx cy).take 256) filter_percent)

/-- `analyze_image_debug` without the optional mask output (the mask writes
never affect the returned value; `analyze_image` passes no mask). -/
def analyze_image_debug (data : List Nat) (w h : Nat) (config : AnalysisConfig) :
    Option BeadAnalysis :=
  if w = 0 ∨ h = 0 ∨ data.length < w * h * 2 then none
  else
    if (coarse data w h).best_score < -200000 then none
    else
      match (coarse data w h).best_stats with
      | none => none
      | some _ =>
        refineAt data w h (coarse data w h).best_cx (coarse data w h).best_cy
          config.filter_percent

/-- `analyze_image`: the debug entry point with the default configuration. -/
def analyze_image (data : List Nat) (w h : Nat) : Option BeadAnalysis :=
  analyze_image_debug data w h analysisConfigDefault

/-- Invariant of the coarse scan accumulator: a missing `best_stats` means the
score is still the `i64::MIN` sentinel, and a present one is exactly the score
and statistics of the recorded center. -/
def coarseInv (data : List Nat) (w h : Nat) (bg : Rgb) (st : CoarseState) : Prop :=
  (st.best_stats = none → st.best_score = -(2 ^ 63)) ∧
  (∀ s, st.best_stats = some s →
    ringScore data w h bg st.best_cx st.best_cy = some (st.best_score, s))

theorem coarseStep_inv (data : List Nat) (w h : Nat) (bg : Rgb) (st : CoarseState)
    (c : Int × Int) (hi : coarseInv data w h bg st) :
    coarseInv data w h bg (coarseStep data w h bg st c) := by
  unfold coarseStep
  rcases hsc : ringScore data w h bg c.1 c.2 with _ | ⟨score, stats⟩
  · exact hi
  · show coarseInv data w h bg
      (if st.best_score < score then ⟨score, c.1, c.2, some stats⟩ else st)
    by_cases hgt : st.best_score < score
    · rw [if_pos hgt]
      constructor
      · intro hcon
        cases hcon
      · intro s hs
        cases hs
        exact hsc
    · rw [if_neg hgt]
      exact hi

theorem coarse_foldl_inv (data : List Nat) (w h : Nat) (bg : Rgb) :
    ∀ (l : List (Int × Int)) (st : CoarseState), coarseInv data w h bg st →
    coarseInv data w h bg (l.foldl (coarseStep data w h bg) st) := by
  intro l
  induction l with
  | nil => intro st hst; exact hst
  | cons c rest ih =>
    intro st hst
    exact ih _ (coarseStep_inv data w h bg st c hst)

theorem coarse_inv (data : List Nat) (w h : Nat) :
    coarseInv data w h (bgColor data w h) (coarse data w h) := by
  unfold coarse
  apply coarse_foldl_inv
  constructor
  · intro _
    rfl
  · intro s hs
    cases hs

theorem refineAt_ne_none (data : List Nat) (w h : Nat) (cx cy : Int) (fp : Nat)
    (hne : ringPixels data w h cx cy ≠ []) :
    refineAt data w h cx cy fp ≠ none := by
  unfold refineAt
  have hlen : ¬((ringPixels data w h cx cy).take 256).length = 0 := by
    rw [List.length_take]
    have hpos : 0 < (ringPixels data w h cx cy).length := List.length_pos.mpr hne
    omega
  rw [if_neg hlen]
  exact Option.some_ne_none _

/-- C5: analyze_image returns None exactly when the frame geometry is invalid
(zero width/height or a buffer shorter than width*height*2 bytes) or the best
coarse-scan score is below −200000; and the all-candidates-skipped case is
covered because the sentinel score is the minimum representable i64. -/
theorem analyze_image_none_iff (data : List Nat) (w h : Nat) :
    (analyze_image data w h = none ↔
      w = 0 ∨ h = 0 ∨ data.length < w * h * 2 ∨
        (coarse data w h).best_score < -200000) ∧
    ((coarse data w h).best_stats = none →
      (coarse data w h).best_score = -(2 ^ 63)) := by
  have hinv := coarse_inv data w h
  refine ⟨?_, hinv.1⟩
  unfold analyze_image analyze_image_debug
  by_cases hg : w = 0 ∨ h = 0 ∨ data.length < w * h * 2
  · rw [if_pos hg]
    constructor
    · intro _
      tauto
    · intro _
      rfl
  · rw [if_neg hg]
    by_cases hs : (coarse data w h).best_score < -200000
    · rw [if_pos hs]
      constructor
      · intro _
        tauto
      · intro _
        rfl
    · rw [if_neg hs]
      rcases hst : (coarse data w h).best_stats with _ | s
      · exfalso
        have hmin := hinv.1 hst
        rw [hmin] at hs
        exact hs (by norm_num)
      · have hscore := hinv.2 s hst
        have hrp : ringPixels data w h (coarse data w h).best_cx
            (coarse data w h).best_cy ≠ [] := by
          intro hempty
          unfold ringScore ringStats at hscore
          rw [hempty] at hscore
          simp at hscore
        have hne := refineAt_ne_none data w h (coarse data w h).best_cx
          (coarse data w h).best_cy analysisConfigDefault.filter_percent hrp
        constructor
        · intro hcon
          exact absurd hcon hne
        · intro hor
          exfalso
          rcases hor with h1 | h1 | h1 | h1
          · exact hg (Or.inl h1)
          · exact hg (Or.inr (Or.inl h1))
          · exact hg (Or.inr (Or.inr h1))
          · exact hs h1

theorem getD_mem {α : Type} (l : List α) (n : Nat) (d : α) (h : n < l.length) :
    l.getD n d ∈ l := by
  rw [List.getD_eq_getElem?_getD, List.getElem?_eq_getElem h]
  exact List.getElem_mem h

theorem match_color_idx_lt (toLab : Rgb → Int × Int × Int) (p : Palette)
    (rgb : Rgb) (v th i : Nat)
    (h : (Palette.match_color toLab p rgb v th).1 = PaletteMatch.Match i ∨
      (Palette.match_color toLab p rgb v th).1 = PaletteMatch.NewEntry i) :
    i < p.colors.length := by
  rcases h with h | h
  · have hc := match_color_Match_char toLab p rgb v th i h
    have := plen_le_length p.colors
    omega
  · have hc := match_color_NewEntry_char toLab p rgb v th i h
    omega

/-- The classifier state of `BeadSorter` (src/fw/src/sorter.rs): a
`Palette<128>`, a heapless `Vec<PaletteEntry, 30>` tube roster, and the
palette-slot → tube-id map (`0xFF` = unassigned). -/
structure BeadSorter where
  palette : Palette
  tubes : List PaletteEntry
  palette_to_tube : List Nat

/-- `BeadSorter::new`. -/
def BeadSorter.new : BeadSorter :=
  ⟨Palette.new 128, [], List.replicate 128 255⟩

/-- The tube choice of `get_tube_for_image`: reuse an assigned mapping, else
append a new seeded tube while the roster has room, else fall back to the
nearest tube by `dist_lab`; paired with the roster that results. -/
def assignTid (toLab : Rgb → Int × Int × Int) (s : BeadSorter) (a : BeadAnalysis)
    (p_idx : Nat) : Nat × List PaletteEntry :=
  if s.palette_to_tube.getD p_idx 255 ≠ 255 then
    (s.palette_to_tube.getD p_idx 255, s.tubes)
  else if s.tubes.length < 30 then
    (s.tubes.length, s.tubes ++ [PaletteEntry.new a.average_color a.variance])
  else (argminTube toLab s.tubes a.average_color, s.tubes)

/-- The final bounds-checked tube accumulation (`if tid < self.tubes.len()`). -/
def tubesAfter (tt : Nat × List PaletteEntry) (a : BeadAnalysis) :
    List PaletteEntry :=
  if tt.1 < tt.2.length then
    tt.2.set tt.1 ((tt.2.getD tt.1 default).add a.average_color a.variance)
  else tt.2

/-- The tail of `get_tube_for_image` after a `Match`/`NewEntry` at palette
slot `p_idx`: accumulate the sample, resolve the tube id and roster, record
the mapping (`tid as u8`), accumulate into the tube, and return
`Some(tid as u8)`. -/
def sorterAssign (toLab : Rgb → Int × Int × Int) (s : BeadSorter) (pal1 : Palette)
    (a : BeadAnalysis) (p_idx : Nat) : Option Nat × BeadSorter :=
  (some ((assignTid toLab s a p_idx).1 % 256),
   ⟨pal1.add_sample p_idx a.average_color a.variance,
    tubesAfter (assignTid toLab s a p_idx) a,
    if p_idx < 128 then
      s.palette_to_tube.set p_idx ((assignTid toLab s a p_idx).1 % 256)
    else s.palette_to_tube⟩)

/-- One classification step on an already-analyzed frame: match against the
palette (threshold 15), bail out with `None` on `Full`. -/
def sorterStep (toLab : Rgb → Int × Int × Int) (s : BeadSorter) (a : BeadAnalysis) :
    Option Nat × BeadSorter :=
  match s.palette.match_color toLab a.average_color a.variance 15 with
  | (PaletteMatch.Full, pal1) => (none, ⟨pal1, s.tubes, s.palette_to_tube⟩)
  | (PaletteMatch.Match i, pal1) => sorterAssign toLab s pal1 a i
  | (PaletteMatch.NewEntry i, pal1) => sorterAssign toLab s pal1 a i

/-- `BeadSorter::get_tube_for_image`: analyze the frame, then classify. -/
def getTubeForImage (toLab : Rgb → Int × Int × Int) (s : BeadSorter)
    (data : List Nat) (w h : Nat) : Option Nat × BeadSorter :=
  match analyze_image data w h with
  | none => (none, s)
  | some a => sorterStep toLab s a

/-- States produced by any sequence of `get_tube_for_image` calls on a fresh
`BeadSorter`. -/
inductive SReachable (toLab : Rgb → Int × Int × Int) : BeadSorter → Prop where
  | init : SReachable toLab BeadSorter.new
  | step (s : BeadSorter) (data : List Nat) (w h : Nat) :
      SReachable toLab s → SReachable toLab (getTubeForImage toLab s data w h).2

/-- The classifier-state invariant: fixed palette and map sizes, a roster of at
most 30 tubes, and every assigned map entry pointing at an existing tube. -/
def SInv (s : BeadSorter) : Prop :=
  s.palette.colors.length = 128 ∧
  s.palette_to_tube.length = 128 ∧
  s.tubes.length ≤ 30 ∧
  ∀ v ∈ s.palette_to_tube, v = 255 ∨ v < s.tubes.length

theorem assignTid_spec (toLab : Rgb → Int × Int × Int) (s : BeadSorter)
    (a : BeadAnalysis) (p_idx : Nat) (hs : SInv s) (hidx : p_idx < 128) :
    (assignTid toLab s a p_idx).1 < (assignTid toLab s a p_idx).2.length ∧
    (assignTid toLab s a p_idx).2.length ≤ 30 ∧
    s.tubes.length ≤ (assignTid toLab s a p_idx).2.length := by
  obtain ⟨hplen, hmlen, htlen, hmap⟩ := hs
  unfold assignTid
  by_cases h1 : s.palette_to_tube.getD p_idx 255 ≠ 255
  · rw [if_pos h1]
    have hmem : s.palette_to_tube.getD p_idx 255 ∈ s.palette_to_tube :=
      getD_mem s.palette_to_tube p_idx 255 (by omega)
    rcases hmap _ hmem with h | h
    · exact absurd h h1
    · exact ⟨h, htlen, le_refl _⟩
  · rw [if_neg h1]
    by_cases h2 : s.tubes.length < 30
    · rw [if_pos h2]
      refine ⟨?_, ?_, ?_⟩ <;> simp
      omega
    · rw [if_neg h2]
      have h30 : s.tubes.length = 30 := by omega
      refine ⟨?_, htlen, le_refl _⟩
      exact argminTube_lt toLab s.tubes a.average_color (by omega)

theorem sorterAssign_fst (toLab : Rgb → Int × Int × Int) (s : BeadSorter)
    (pal1 : Palette) (a : BeadAnalysis) (p_idx : Nat) :
    (sorterAssign toLab s pal1 a p_idx).1 =
      some ((assignTid toLab s a p_idx).1 % 256) := rfl

theorem tubesAfter_length (tt : Nat × List PaletteEntry) (a : BeadAnalysis) :
    (tubesAfter tt a).length = tt.2.length := by
  unfold tubesAfter
  split
  · simp
  · rfl

theorem sorterAssign_inv (toLab : Rgb → Int × Int × Int) (s : BeadSorter)
    (pal1 : Palette) (a : BeadAnalysis) (p_idx : Nat) (hs : SInv s)
    (hpal : pal1.colors.length = 128) (hidx : p_idx < 128) :
    SInv (sorterAssign toLab s pal1 a p_idx).2 ∧
    ∀ t, (sorterAssign toLab s pal1 a p_idx).1 = some t → t < 30 := by
  obtain ⟨htt1, htt2, htt3⟩ := assignTid_spec toLab s a p_idx hs hidx
  obtain ⟨hplen, hmlen, htlen, hmap⟩ := hs
  have hmod : (assignTid toLab s a p_idx).1 % 256 = (assignTid toLab s a p_idx).1 :=
    Nat.mod_eq_of_lt (by omega)
  have hA : (pal1.add_sample p_idx a.average_color a.variance).colors.length = 128 := by
    rw [add_sample_length, hpal]
  have hB : (if p_idx < 128 then
      s.palette_to_tube.set p_idx ((assignTid toLab s a p_idx).1 % 256)
    else s.palette_to_tube).length = 128 := by
    rw [if_pos hidx]
    simp [hmlen]
  have hC : (tubesAfter (assignTid toLab s a p_idx) a).length ≤ 30 := by
    rw [tubesAfter_length]
    exact htt2
  have hD : ∀ v ∈ (if p_idx < 128 then
      s.palette_to_tube.set p_idx ((assignTid toLab s a p_idx).1 % 256)
    else s.palette_to_tube), v = 255 ∨
      v < (tubesAfter (assignTid toLab s a p_idx) a).length := by
    intro v hv
    rw [tubesAfter_length]
    rw [if_pos hidx] at hv
    rcases List.mem_or_eq_of_mem_set hv with hold | hnew
    · rcases hmap v hold with h | h
      · exact Or.inl h
      · exact Or.inr (by omega)
    · subst hnew
      rw [hmod]
      exact Or.inr htt1
  refine ⟨⟨hA, hB, hC, hD⟩, ?_⟩
  intro t ht
  have hteq : (assignTid toLab s a p_idx).1 % 256 = t := Option.some.inj ht
  omega

theorem sorterStep_inv (toLab : Rgb → Int × Int × Int) (s : BeadSorter)
    (a : BeadAnalysis) (hs : SInv s) :
    SInv (sorterStep toLab s a).2 ∧
    ∀ t, (sorterStep toLab s a).1 = some t → t < 30 := by
  unfold sorterStep
  rcases hmc : s.palette.match_color toLab a.average_color a.variance 15 with ⟨res, pal1⟩
  have hlen1 : pal1.colors.length = 128 := by
    have hl := match_color_length toLab s.palette a.average_color a.variance 15
    rw [hmc] at hl
    rw [hl, hs.1]
  cases res with
  | Full =>
    constructor
    · exact ⟨hlen1, hs.2.1, hs.2.2.1, hs.2.2.2⟩
    · intro t ht
      cases ht
  | Match i =>
    have hidx : i < s.palette.colors.length := by
      apply match_color_idx_lt toLab s.palette a.average_color a.variance 15 i
      left
      rw [hmc]
    rw [hs.1] at hidx
    exact sorterAssign_inv toLab s pal1 a i hs hlen1 hidx
  | NewEntry i =>
    have hidx : i < s.palette.colors.length := by
      apply match_color_idx_lt toLab s.palette a.average_color a.variance 15 i
      right
      rw [hmc]
    rw [hs.1] at hidx
    exact sorterAssign_inv toLab s pal1 a i hs hlen1 hidx

theorem sinv_new : SInv BeadSorter.new := by
  refine ⟨?_, ?_, ?_, ?_⟩
  · simp [BeadSorter.new, Palette.new]
  · simp [BeadSorter.new]
  · simp [BeadSorter.new]
  · intro v hv
    left
    exact List.eq_of_mem_replicate hv

theorem sreachable_sinv (toLab : Rgb → Int × Int × Int) (s : BeadSorter)
    (h : SReachable toLab s) : SInv s := by
  induction h with
  | init => exact sinv_new
  | step s data w h hr ih =>
    unfold getTubeForImage
    rcases analyze_image data w h with _ | a
    · exact ih
    · exact (sorterStep_inv toLab s a ih).1

/-- C2: on every reachable BeadSorter state, the tube roster never exceeds 30
entries (before or after a call), every `Some` tube id returned lies in
[0, 30), and once the roster holds 30 entries every palette cluster without a
tube mapping is sent to the tube whose running-average color has minimum
dist_lab to the sample, first in scan order on ties. -/
theorem get_tube_invariants (toLab : Rgb → Int × Int × Int) (s : BeadSorter)
    (hr : SReachable toLab s) (data : List Nat) (w h : Nat) :
    s.tubes.length ≤ 30 ∧
    (getTubeForImage toLab s data w h).2.tubes.length ≤ 30 ∧
    (∀ t, (getTubeForImage toLab s data w h).1 = some t → t < 30) ∧
    (∀ a p_idx,
      analyze_image data w h = some a →
      ((s.palette.match_color toLab a.average_color a.variance 15).1 =
          PaletteMatch.Match p_idx ∨
        (s.palette.match_color toLab a.average_color a.variance 15).1 =
          PaletteMatch.NewEntry p_idx) →
      s.palette_to_tube.getD p_idx 255 = 255 →
      s.tubes.length = 30 →
      (getTubeForImage toLab s data w h).1 =
        some (argminTube toLab s.tubes a.average_color) ∧
      argminTube toLab s.tubes a.average_color < 30 ∧
      (∀ j, j < s.tubes.length →
        tubeDist toLab a.average_color
          (s.tubes.getD (argminTube toLab s.tubes a.average_color) default) ≤
        tubeDist toLab a.average_color (s.tubes.getD j default)) ∧
      (∀ j, j < argminTube toLab s.tubes a.average_color →
        tubeDist toLab a.average_color
          (s.tubes.getD (argminTube toLab s.tubes a.average_color) default) <
        tubeDist toLab a.average_color (s.tubes.getD j default))) := by
  have hs := sreachable_sinv toLab s hr
  have hafter : SInv (getTubeForImage toLab s data w h).2 ∧
      ∀ t, (getTubeForImage toLab s data w h).1 = some t → t < 30 := by
    unfold getTubeForImage
    rcases analyze_image data w h with _ | a
    · refine ⟨hs, ?_⟩
      intro t ht
      cases ht
    · exact sorterStep_inv toLab s a hs
  refine ⟨hs.2.2.1, hafter.1.2.2.1, hafter.2, ?_⟩
  intro a p_idx hana hmor hmapped h30
  have hgoal1 : (getTubeForImage toLab s data w h).1 =
      some ((assignTid toLab s a p_idx).1 % 256) := by
    unfold getTubeForImage
    rw [hana]
    show (sorterStep toLab s a).1 = _
    unfold sorterStep
    rcases hmc : s.palette.match_color toLab a.average_color a.variance 15 with
      ⟨res, pal1⟩
    rcases hmor with hm | hm
    · rw [hmc] at hm
      have hres : res = PaletteMatch.Match p_idx := hm
      subst hres
      show (sorterAssign toLab s pal1 a p_idx).1 = _
      rfl
    · rw [hmc] at hm
      have hres : res = PaletteMatch.NewEntry p_idx := hm
      subst hres
      show (sorterAssign toLab s pal1 a p_idx).1 = _
      rfl
  have htt : assignTid toLab s a p_idx =
      (argminTube toLab s.tubes a.average_color, s.tubes) := by
    unfold assignTid
    rw [hmapped]
    rw [if_neg (by simp)]
    rw [if_neg (by omega)]
  have hlt : argminTube toLab s.tubes a.average_color < 30 := by
    have := argminTube_lt toLab s.tubes a.average_color (by omega)
    omega
  have hmod : argminTube toLab s.tubes a.average_color % 256 =
      argminTube toLab s.tubes a.average_color := Nat.mod_eq_of_lt (by omega)
  refine ⟨?_, hlt, ?_, ?_⟩
  · rw [hgoal1, htt]
    show some (argminTube toLab s.tubes a.average_color % 256) = _
    rw [hmod]
  · intro j hj
    exact argminTube_min toLab s.tubes a.average_color j hj
  · exact argminTube_first_on_ties toLab s.tubes a.average_color

theorem get_tube_invariants_witness :
    BeadSorter.new.tubes.length ≤ 30 ∧
    (getTubeForImage toLab0 BeadSorter.new [] 0 0).2.tubes.length ≤ 30 :=
  ⟨(get_tube_invariants toLab0 BeadSorter.new SReachable.init [] 0 0).1,
   (get_tube_invariants toLab0 BeadSorter.new SReachable.init [] 0 0).2.1⟩
